import Mathlib

/-!
Shallow embedding of the RAG-Pdf-Talks backend (FastAPI + SQLite + Pinecone).

The embedding covers:
* `VectorService.create_sparse_vector` (backend/app/services/vector_service.py):
  tokenization, stopword filtering, term frequency, hash-based sparse indices.
  The Python builtin `hash` on strings is process-seeded, so it is modelled as
  an arbitrary parameter `hash : String → Int`; all theorems hold for every
  choice of that function.  Python floats are modelled as exact rationals `ℚ`.
* `DocumentDatabase` (backend/app/core/database.py): the `documents` SQLite
  table is modelled as a list of rows; the PRIMARY KEY constraint makes
  `INSERT` fail (IntegrityError, caught, `False` returned) on a duplicate id.
* The route handlers (backend/app/api/routes/documents.py, chat.py), modelled
  as pure state transformers that also record the trace of side effects
  (local file writes, local SQLite operations, Pinecone and LLM calls).
-/

namespace RagPdf

/-! ## VectorService.create_sparse_vector -/

/-- Fixed index space of the hashed sparse vectors: `% 100000` in the source. -/
def SPARSE_DIM : Nat := 100000

/-- A regex word character as matched by `\w` for ASCII text: alphanumeric or
underscore.  Used to model `re.findall(r'\b\w+\b', ...)`, which returns the
maximal runs of word characters. -/
def isWordChar (c : Char) : Bool := c.isAlphanum || c == '_'

/-- Accumulating scan over the characters: collects maximal runs of word
characters, in order.  `acc` holds the current run, reversed. -/
def tokenizeAux : List Char → List Char → List String
  | [], acc => if acc.isEmpty then [] else [String.mk acc.reverse]
  | c :: cs, acc =>
    if isWordChar c then
      tokenizeAux cs (c :: acc)
    else if acc.isEmpty then
      tokenizeAux cs []
    else
      String.mk acc.reverse :: tokenizeAux cs []

/-- Models `re.findall(r'\b\w+\b', text.lower())`.  Lowercasing is done
character by character, which is exactly `String.toLower`. -/
def tokenize (text : String) : List String :=
  tokenizeAux (text.toList.map Char.toLower) []

/-- The fixed 16-word stopword set of `create_sparse_vector`. -/
def stop_words : List String :=
  ["the", "a", "an", "and", "or", "but", "in", "on", "at", "to", "for", "of",
   "is", "are", "was", "were"]

/-- Models `[t for t in tokens if len(t) > 2 and t not in stop_words]`. -/
def filteredTokens (text : String) : List String :=
  (tokenize text).filter (fun t => decide (2 < t.length) && !(stop_words.contains t))

/-- Models `abs(hash(token)) % 100000` for a given process hash function. -/
def tokenIndex (hash : String → Int) (t : String) : Nat :=
  (hash t).natAbs % SPARSE_DIM

/-- Models `float(count) / max(total_tokens, 1)` with exact rationals. -/
def tfValue (total count : Nat) : ℚ :=
  (count : ℚ) / ((max total 1 : Nat) : ℚ)

/-- Models `Counter(tokens).items()`: each distinct token together with its
multiplicity.  The enumeration order of a Python dict differs from `dedup`
order, but the final sparse vector is sorted by index, and value aggregation
is commutative addition, so the order of this list does not affect the
result. -/
def counterItems (toks : List String) : List (String × Nat) :=
  toks.dedup.map (fun t => (t, toks.count t))

/-- Models the dict update `index_value_map[h] += v` / `index_value_map[h] = v`:
add into the entry with the given key, or append a fresh entry. -/
def insertAdd : List (Nat × ℚ) → Nat → ℚ → List (Nat × ℚ)
  | [], i, v => [(i, v)]
  | p :: m, i, v => if p.1 = i then (p.1, p.2 + v) :: m else p :: insertAdd m i v

/-- Models the loop `for token, count in token_counts.items(): ...` building
`index_value_map`. -/
def buildIndexValueMap (hash : String → Int) (total : Nat) :
    List (String × Nat) → List (Nat × ℚ) → List (Nat × ℚ)
  | [], m => m
  | tc :: rest, m =>
    buildIndexValueMap hash total rest (insertAdd m (tokenIndex hash tc.1) (tfValue total tc.2))

/-- The returned `{"indices": ..., "values": ...}` dictionary. -/
structure SparseVector where
  indices : List Nat
  values : List ℚ
deriving DecidableEq, Repr

/-- Comparison used to model `sorted(index_value_map.items())`: items are
(key, value) pairs with pairwise-distinct keys, so sorting by key equals
Python lexicographic sorting of the items. -/
def pairLE (p q : Nat × ℚ) : Bool := decide (p.1 ≤ q.1)

/-- Models `VectorService.create_sparse_vector`. -/
def create_sparse_vector (hash : String → Int) (text : String) : SparseVector :=
  let tokens := filteredTokens text
  let total := tokens.length
  let m := buildIndexValueMap hash total (counterItems tokens) []
  let sorted_items := m.mergeSort pairLE
  { indices := sorted_items.map Prod.fst, values := sorted_items.map Prod.snd }

/-! Specification-side restatement of the claim: each remaining distinct token
maps to index `abs(hash t) % 100000` with value `count t / max(total, 1)`, and
tokens colliding on an index have their values summed. -/

/-- Claim-side term frequency of a retained token. -/
def spec_tf (text t : String) : ℚ :=
  tfValue (filteredTokens text).length ((filteredTokens text).count t)

/-- Claim-side value at an index: the sum of the term frequencies of the
distinct retained tokens hashing to that index. -/
def spec_value_at (hash : String → Int) (text : String) (i : Nat) : ℚ :=
  (((filteredTokens text).dedup.filter (fun t => decide (tokenIndex hash t = i))).map
    (spec_tf text)).sum

/-- Claim-side index list: the distinct indices hit by retained tokens, in
ascending order. -/
def spec_used_indices (hash : String → Int) (text : String) : List Nat :=
  (((filteredTokens text).dedup.map (tokenIndex hash)).dedup).mergeSort
    (fun a b => decide (a ≤ b))

/-- Claim-side sparse vector. -/
def sparse_vector_spec (hash : String → Int) (text : String) : SparseVector :=
  { indices := spec_used_indices hash text,
    values := (spec_used_indices hash text).map (spec_value_at hash text) }

/-- Total value stored for key `i` in an association list (the dict denotes
this function; with pairwise-distinct keys it is the stored value). -/
def lookupVal (m : List (Nat × ℚ)) (i : Nat) : ℚ :=
  ((m.filter (fun p => decide (p.1 = i))).map Prod.snd).sum

/-! ## Side effects

Every route handler is modelled as a pure state transformer that also records
the trace of its observable side effects: writes to local durable storage
(the uploads directory and the SQLite file documents.db) and calls to the
hosted services (Pinecone index operations, LLM completion). -/

/-- Observable side effects of the handlers. -/
inductive Effect where
  | fileWrite (path : String)
  | fileDelete (path : String)
  | dbInsert
  | dbDelete
  | pineconeUpsert
  | pineconeQuery
  | pineconeDelete
  | llmCompletion
deriving DecidableEq, Repr

/-- Effects that touch local durable storage (local filesystem or the local
SQLite database file). -/
def Effect.isLocalPersist : Effect → Bool
  | .fileWrite _ => true
  | .fileDelete _ => true
  | .dbInsert => true
  | .dbDelete => true
  | _ => false

/-- Calls in the sense of the spec sentence about thin handlers: a database
write, a vector-index upsert, query or delete, or an LLM completion request. -/
def Effect.isServiceCall : Effect → Bool
  | .dbInsert => true
  | .dbDelete => true
  | .pineconeUpsert => true
  | .pineconeQuery => true
  | .pineconeDelete => true
  | .llmCompletion => true
  | _ => false

/-- Calls that reach a hosted service over HTTP (Pinecone, LLM provider). -/
def Effect.isHostedCall : Effect → Bool
  | .pineconeUpsert => true
  | .pineconeQuery => true
  | .pineconeDelete => true
  | .llmCompletion => true
  | _ => false

/-! ## DocumentDatabase (backend/app/core/database.py)

The documents SQLite table is modelled as a list of rows in insertion order.
`init_db` creates the empty table, so the initial state is `[]`. -/

/-- One row of the documents table. -/
structure DocumentRow where
  document_id : String
  filename : String
  upload_date : String
  chunks_count : Nat
  status : String
  file_path : String
deriving DecidableEq, Repr

/-- The documents table state. -/
abbrev DocumentsTable := List DocumentRow

namespace DocumentDatabase

/-- Models `DocumentDatabase.add_document`: the INSERT succeeds and appends the
row unless the PRIMARY KEY on document_id is violated, in which case sqlite
raises IntegrityError, the except-branch returns False, and the table is
unchanged. -/
def add_document (table : DocumentsTable) (doc : DocumentRow) : Bool × DocumentsTable :=
  if table.any (fun r => r.document_id == doc.document_id) then
    (false, table)
  else
    (true, table ++ [doc])

/-- Models `DocumentDatabase.get_document`: SELECT by primary key. -/
def get_document (table : DocumentsTable) (document_id : String) : Option DocumentRow :=
  table.find? (fun r => r.document_id == document_id)

/-- Models `DocumentDatabase.delete_document`: DELETE by primary key, returning
whether `cursor.rowcount > 0`. -/
def delete_document (table : DocumentsTable) (document_id : String) : Bool × DocumentsTable :=
  let remaining := table.filter (fun r => !(r.document_id == document_id))
  (decide (remaining.length < table.length), remaining)

end DocumentDatabase

/-- Table states reachable from the empty table created by `init_db` through
the database mutations used by the routes. -/
inductive TableReachable : DocumentsTable → Prop
  | init : TableReachable []
  | add (t : DocumentsTable) (doc : DocumentRow) :
      TableReachable t → TableReachable (DocumentDatabase.add_document t doc).2
  | del (t : DocumentsTable) (document_id : String) :
      TableReachable t → TableReachable (DocumentDatabase.delete_document t document_id).2

/-! ## Route handlers (backend/app/api/routes) -/

/-- Response model `DocumentUploadResponse` (backend/app/models/schemas.py). -/
structure DocumentUploadResponse where
  document_id : String
  filename : String
  chunks_count : Nat
  status : String
deriving DecidableEq, Repr

/-- Outcome of the upload route.  `badRequest` is the HTTPException(400) raised
before the try-block; `serverError` is the HTTPException(500) raised by the
generic except-branch, which also swallows HTTPExceptions raised inside the
try-block and re-raises them with status 500. -/
inductive UploadOutcome where
  | badRequest (detail : String)
  | serverError (detail : String)
  | success (resp : DocumentUploadResponse)
deriving DecidableEq, Repr

/-- HTTP status of an upload outcome. -/
def UploadOutcome.statusCode : UploadOutcome → Nat
  | .badRequest _ => 400
  | .serverError _ => 500
  | .success _ => 200

/-- Whether the upload request failed. -/
def UploadOutcome.isFailure : UploadOutcome → Bool
  | .badRequest _ => true
  | .serverError _ => true
  | .success _ => false

/-- Inputs of one upload request that come from outside the modelled state:
the uploaded filename, the generated uuid, the wall-clock date, the text
extracted from the PDF (empty means extraction failed), the chunks produced
by `split_text_into_chunks`, and whether the Pinecone upsert succeeded. -/
structure UploadArgs where
  filename : String
  document_id : String
  upload_date : String
  extracted_text : String
  chunks : List String
  vector_ok : Bool

/-- Models the batched upsert loop of `VectorService.add_documents`: one
`index.upsert` call per batch of 100 vectors (one vector per chunk). -/
def upsertBatchCalls (n : Nat) : List Effect :=
  (List.range ((n + 99) / 100)).map (fun _ => Effect.pineconeUpsert)

/-- Models `file.filename.endswith('.pdf')`.  `List.isSuffixOf` on the
character lists is exactly string suffix testing. -/
def isPdfFilename (filename : String) : Bool :=
  List.isSuffixOf (".pdf".toList) filename.toList

/-- Models `os.path.join("uploads", f"...")` for the saved file. -/
def uploadFilePath (a : UploadArgs) : String :=
  "uploads/" ++ a.document_id ++ "_" ++ a.filename

/-- The `document_info` row stored by a successful upload. -/
def uploadRow (a : UploadArgs) : DocumentRow :=
  { document_id := a.document_id, filename := a.filename,
    upload_date := a.upload_date, chunks_count := a.chunks.length,
    status := "processed", file_path := uploadFilePath a }

namespace Routes

/-- Models the `POST /upload` handler `upload_document`.  Returns the outcome,
the documents table after the request, and the effect trace. -/
def upload_document (a : UploadArgs) (table : DocumentsTable) :
    UploadOutcome × DocumentsTable × List Effect :=
  if !(isPdfFilename a.filename) then
    (.badRequest ("Only PDF files are supported"), table, [])
  else
    let saveFx := [Effect.fileWrite (uploadFilePath a)]
    if a.extracted_text.isEmpty then
      (.serverError ("Error processing document"), table,
        saveFx ++ [Effect.fileDelete (uploadFilePath a)])
    else
      let upserts := upsertBatchCalls a.chunks.length
      if !a.vector_ok then
        (.serverError ("Error processing document"), table,
          saveFx ++ upserts ++ [Effect.fileDelete (uploadFilePath a)])
      else
        let r := DocumentDatabase.add_document table (uploadRow a)
        if r.1 then
          (.success { document_id := a.document_id, filename := a.filename,
                      chunks_count := a.chunks.length, status := "processed" },
           r.2, saveFx ++ upserts ++ [Effect.dbInsert])
        else
          (.serverError ("Error processing document"), r.2,
           saveFx ++ upserts ++ [Effect.dbInsert, Effect.pineconeDelete,
                                 Effect.fileDelete (uploadFilePath a)])

end Routes

/-- Outcome of a fetch-style route: 404 when the resource is missing. -/
inductive FetchOutcome (α : Type) where
  | notFound
  | ok (val : α)
deriving DecidableEq, Repr

/-- HTTP status of a fetch outcome. -/
def FetchOutcome.statusCode {α : Type} : FetchOutcome α → Nat
  | .notFound => 404
  | .ok _ => 200

/-- Whether the fetch request failed. -/
def FetchOutcome.isFailure {α : Type} : FetchOutcome α → Bool
  | .notFound => true
  | .ok _ => false

namespace Routes

/-- Models the `GET /{document_id}` handler `get_document`: 404 when the row
is missing, the row otherwise. -/
def get_document (table : DocumentsTable) (document_id : String) :
    FetchOutcome DocumentRow :=
  match DocumentDatabase.get_document table document_id with
  | none => .notFound
  | some d => .ok d

end Routes

/-! ## Chat routes (backend/app/api/routes/chat.py) -/

/-- One message of a stored conversation history. -/
structure ChatMsg where
  role : String
  content : String
deriving DecidableEq, Repr

/-- The module-level `conversations` dict, modelled as an association list in
insertion order. -/
abbrev ConversationStore := List (String × List ChatMsg)

/-- Models `conversations.get(conversation_id, ...)` presence and value. -/
def convLookup (s : ConversationStore) (conversation_id : String) :
    Option (List ChatMsg) :=
  (s.find? (fun p => p.1 == conversation_id)).map Prod.snd

/-- Models `conversations[conversation_id] = history`: overwrite the entry if
the key is present, append it otherwise. -/
def convSet (s : ConversationStore) (conversation_id : String)
    (history : List ChatMsg) : ConversationStore :=
  if s.any (fun p => p.1 == conversation_id) then
    s.map (fun p => if p.1 == conversation_id then (p.1, history) else p)
  else
    s ++ [(conversation_id, history)]

/-- Models the Python slice `history[-10:]`: the last 10 elements. -/
def lastTen (l : List ChatMsg) : List ChatMsg := l.drop (l.length - 10)

/-- Request model `ChatRequest` (backend/app/models/schemas.py). -/
structure ChatRequest where
  message : String
  document_id : Option String
  conversation_id : Option String

/-- Response model `ChatResponse`. -/
structure ChatResponse where
  response : String
  conversation_id : String
  sources : List String
deriving DecidableEq, Repr

/-- Outcome of the chat route: the generic except-branch maps any exception to
HTTPException(500). -/
inductive ChatOutcome where
  | serverError (detail : String)
  | ok (resp : ChatResponse)
deriving DecidableEq, Repr

/-- HTTP status of a chat outcome. -/
def ChatOutcome.statusCode : ChatOutcome → Nat
  | .serverError _ => 500
  | .ok _ => 200

/-- Python truthiness of an optional string: `None` and the empty string are
falsy.  Models `if request.document_id:`. -/
def optStrTruthy : Option String → Bool
  | none => false
  | some s => !s.isEmpty

/-- Models `request.conversation_id or str(uuid.uuid4())`: the `or` falls
through on `None` and on the empty string. -/
def orDefault (o : Option String) (d : String) : String :=
  match o with
  | none => d
  | some s => if s.isEmpty then d else s

/-- Inputs of one chat request that come from outside the modelled state: the
generated uuid used when no truthy conversation_id is given, the chunk texts
and source labels returned by the Pinecone query (`search_similar` catches its
own errors and returns an empty list), whether the LLM call returns normally,
and the LLM response text. -/
structure ChatEnv where
  generated_id : String
  search_results : List String
  search_sources : List String
  llm_ok : Bool
  llm_response : String

namespace Routes

/-- Models the `POST /chat` handler `chat`.  The Pinecone query happens only
when a truthy (non-empty) document_id is given; the LLM completion is always
attempted; the stored history is updated to the last 10 messages only after
the LLM call returns. -/
def chat (env : ChatEnv) (req : ChatRequest) (s : ConversationStore) :
    ChatOutcome × ConversationStore × List Effect :=
  let conversation_id := orDefault req.conversation_id env.generated_id
  let history := (convLookup s conversation_id).getD []
  let queryFx := if optStrTruthy req.document_id then [Effect.pineconeQuery] else []
  if env.llm_ok then
    let history2 := history ++
      [{ role := "user", content := req.message },
       { role := "assistant", content := env.llm_response }]
    let s2 := convSet s conversation_id (lastTen history2)
    (.ok { response := env.llm_response, conversation_id := conversation_id,
           sources := if optStrTruthy req.document_id then env.search_sources else [] },
     s2, queryFx ++ [Effect.llmCompletion])
  else
    (.serverError ("Chat error"), s, queryFx ++ [Effect.llmCompletion])

/-- Models the `GET /conversations/{conversation_id}` handler
`get_conversation`: 404 when the key is missing. -/
def get_conversation (s : ConversationStore) (conversation_id : String) :
    FetchOutcome (List ChatMsg) :=
  match convLookup s conversation_id with
  | none => .notFound
  | some msgs => .ok msgs

/-- Models the `DELETE /conversations/{conversation_id}` handler
`delete_conversation`: 404 when the key is missing, otherwise the key is
removed. -/
def delete_conversation (s : ConversationStore) (conversation_id : String) :
    FetchOutcome Unit × ConversationStore :=
  if s.any (fun p => p.1 == conversation_id) then
    (.ok (), s.filter (fun p => !(p.1 == conversation_id)))
  else
    (.notFound, s)

end Routes

/-- Conversation stores reachable from the initial empty dict through the
routes that mutate it. -/
inductive ConvReachable : ConversationStore → Prop
  | init : ConvReachable []
  | chatStep (env : ChatEnv) (req : ChatRequest) (s : ConversationStore) :
      ConvReachable s → ConvReachable (Routes.chat env req s).2.1
  | deleteStep (s : ConversationStore) (conversation_id : String) :
      ConvReachable s → ConvReachable (Routes.delete_conversation s conversation_id).2

/-! ## Lemmas about the index-value map -/

theorem lookupVal_nil (j : Nat) : lookupVal [] j = 0 := rfl

theorem lookupVal_cons (p : Nat × ℚ) (m : List (Nat × ℚ)) (j : Nat) :
    lookupVal (p :: m) j = (if p.1 = j then p.2 else 0) + lookupVal m j := by
  by_cases h : p.1 = j <;> simp [lookupVal, List.filter_cons, h]

theorem lookupVal_eq_zero {m : List (Nat × ℚ)} {j : Nat}
    (hj : j ∉ m.map Prod.fst) : lookupVal m j = 0 := by
  induction m with
  | nil => rfl
  | cons p m ih =>
    simp only [List.map_cons, List.mem_cons, not_or] at hj
    rw [lookupVal_cons, if_neg (fun hh => hj.1 hh.symm), ih hj.2, add_zero]

theorem insertAdd_keys (m : List (Nat × ℚ)) (i : Nat) (v : ℚ) :
    (insertAdd m i v).map Prod.fst =
      if i ∈ m.map Prod.fst then m.map Prod.fst else m.map Prod.fst ++ [i] := by
  induction m with
  | nil => simp [insertAdd]
  | cons p m ih =>
    by_cases hp : p.1 = i
    · simp [insertAdd, hp]
    · have hip : ¬ i = p.1 := fun hh => hp hh.symm
      by_cases hm : i ∈ m.map Prod.fst <;>
        simp [insertAdd, hp, ih, hm, hip]

theorem mem_insertAdd_keys {m : List (Nat × ℚ)} {i : Nat} {v : ℚ} {j : Nat} :
    j ∈ (insertAdd m i v).map Prod.fst ↔ j ∈ m.map Prod.fst ∨ j = i := by
  rw [insertAdd_keys]
  by_cases hm : i ∈ m.map Prod.fst
  · rw [if_pos hm]
    constructor
    · exact Or.inl
    · rintro (hj | rfl)
      · exact hj
      · exact hm
  · rw [if_neg hm]
    simp

theorem insertAdd_keys_nodup {m : List (Nat × ℚ)} {i : Nat} {v : ℚ}
    (h : (m.map Prod.fst).Nodup) : ((insertAdd m i v).map Prod.fst).Nodup := by
  rw [insertAdd_keys]
  by_cases hm : i ∈ m.map Prod.fst
  · rwa [if_pos hm]
  · rw [if_neg hm, List.nodup_append]
    refine ⟨h, List.nodup_singleton i, ?_⟩
    intro a ha hb
    rw [List.mem_singleton] at hb
    subst hb
    exact hm ha

theorem insertAdd_lookupVal (m : List (Nat × ℚ)) (i : Nat) (v : ℚ) (j : Nat) :
    lookupVal (insertAdd m i v) j = lookupVal m j + (if i = j then v else 0) := by
  induction m with
  | nil =>
    by_cases h : i = j <;> simp [insertAdd, lookupVal_cons, lookupVal_nil, h]
  | cons p m ih =>
    by_cases hp : p.1 = i
    · subst hp
      by_cases hj : p.1 = j
      · simp [insertAdd, lookupVal_cons, hj]
        ring
      · simp [insertAdd, lookupVal_cons, hj]
    · simp only [insertAdd, if_neg hp, lookupVal_cons, ih]
      ring

theorem insertAdd_sumValues (m : List (Nat × ℚ)) (i : Nat) (v : ℚ) :
    ((insertAdd m i v).map Prod.snd).sum = (m.map Prod.snd).sum + v := by
  induction m with
  | nil => simp [insertAdd]
  | cons p m ih =>
    by_cases hp : p.1 = i
    · simp [insertAdd, hp]
      ring
    · simp [insertAdd, hp, ih]
      ring

theorem build_keys_mem (hash : String → Int) (total : Nat) :
    ∀ (items : List (String × Nat)) (m : List (Nat × ℚ)) (j : Nat),
      j ∈ (buildIndexValueMap hash total items m).map Prod.fst ↔
        j ∈ m.map Prod.fst ∨ j ∈ items.map (fun tc => tokenIndex hash tc.1) := by
  intro items
  induction items with
  | nil =>
    intro m j
    simp [buildIndexValueMap]
  | cons tc rest ih =>
    intro m j
    simp only [buildIndexValueMap, List.map_cons, List.mem_cons]
    rw [ih, mem_insertAdd_keys]
    tauto

theorem build_keys_nodup (hash : String → Int) (total : Nat) :
    ∀ (items : List (String × Nat)) (m : List (Nat × ℚ)),
      (m.map Prod.fst).Nodup → ((buildIndexValueMap hash total items m).map Prod.fst).Nodup := by
  intro items
  induction items with
  | nil =>
    intro m hm
    exact hm
  | cons tc rest ih =>
    intro m hm
    exact ih _ (insertAdd_keys_nodup hm)

theorem build_lookupVal (hash : String → Int) (total : Nat) :
    ∀ (items : List (String × Nat)) (m : List (Nat × ℚ)) (j : Nat),
      lookupVal (buildIndexValueMap hash total items m) j =
        lookupVal m j +
          ((items.filter (fun tc => decide (tokenIndex hash tc.1 = j))).map
            (fun tc => tfValue total tc.2)).sum := by
  intro items
  induction items with
  | nil =>
    intro m j
    simp [buildIndexValueMap]
  | cons tc rest ih =>
    intro m j
    simp only [buildIndexValueMap]
    rw [ih, insertAdd_lookupVal]
    by_cases h : tokenIndex hash tc.1 = j
    · simp [List.filter_cons, h]
      ring
    · simp [List.filter_cons, h]

theorem build_sumValues (hash : String → Int) (total : Nat) :
    ∀ (items : List (String × Nat)) (m : List (Nat × ℚ)),
      ((buildIndexValueMap hash total items m).map Prod.snd).sum =
        (m.map Prod.snd).sum + (items.map (fun tc => tfValue total tc.2)).sum := by
  intro items
  induction items with
  | nil =>
    intro m
    simp [buildIndexValueMap]
  | cons tc rest ih =>
    intro m
    simp only [buildIndexValueMap, List.map_cons, List.sum_cons]
    rw [ih, insertAdd_sumValues]
    ring

theorem lookupVal_of_perm {m₁ m₂ : List (Nat × ℚ)} (hp : m₁.Perm m₂) (j : Nat) :
    lookupVal m₁ j = lookupVal m₂ j :=
  ((hp.filter _).map _).sum_eq

theorem snd_eq_lookupVal {m : List (Nat × ℚ)}
    (hnd : (m.map Prod.fst).Nodup) {p : Nat × ℚ} (hp : p ∈ m) :
    p.2 = lookupVal m p.1 := by
  induction m with
  | nil => cases hp
  | cons q m ih =>
    rw [List.map_cons, List.nodup_cons] at hnd
    rcases List.mem_cons.mp hp with rfl | hp2
    · rw [lookupVal_cons, if_pos rfl, lookupVal_eq_zero hnd.1, add_zero]
    · have hq : ¬ q.1 = p.1 :=
        fun hh => hnd.1 (hh ▸ List.mem_map_of_mem Prod.fst hp2)
      rw [lookupVal_cons, if_neg hq, zero_add]
      exact ih hnd.2 hp2

theorem pairLE_trans (a b c : Nat × ℚ) (hab : pairLE a b) (hbc : pairLE b c) :
    pairLE a c := by
  simp only [pairLE, decide_eq_true_eq] at *
  exact le_trans hab hbc

theorem pairLE_total (a b : Nat × ℚ) : pairLE a b || pairLE b a := by
  simp only [pairLE, Bool.or_eq_true, decide_eq_true_eq]
  exact le_total a.1 b.1

theorem natLE_trans (a b c : Nat) (hab : decide (a ≤ b) = true)
    (hbc : decide (b ≤ c) = true) : decide (a ≤ c) = true := by
  simp only [decide_eq_true_eq] at *
  exact le_trans hab hbc

theorem natLE_total (a b : Nat) : (decide (a ≤ b) || decide (b ≤ a)) = true := by
  simp only [Bool.or_eq_true, decide_eq_true_eq]
  exact le_total a b

theorem map_snd_eq_map_of_lookup {l : List (Nat × ℚ)} {f : Nat → ℚ}
    (h : ∀ p ∈ l, p.2 = f p.1) :
    l.map Prod.snd = (l.map Prod.fst).map f := by
  rw [List.map_map]
  exact List.map_congr_left (fun p hp => h p hp)

theorem sparseVector_eq_of_fields {x y : SparseVector}
    (hi : x.indices = y.indices) (hv : x.values = y.values) : x = y := by
  cases x
  cases y
  simp only [SparseVector.mk.injEq]
  exact ⟨hi, hv⟩

theorem counterItems_map_fst_index (hash : String → Int) (toks : List String) :
    (counterItems toks).map (fun tc => tokenIndex hash tc.1) =
      toks.dedup.map (tokenIndex hash) := by
  unfold counterItems
  rw [List.map_map]
  rfl

theorem create_indices_eq (hash : String → Int) (text : String) :
    (create_sparse_vector hash text).indices = spec_used_indices hash text := by
  have hIdx : (create_sparse_vector hash text).indices =
      ((buildIndexValueMap hash (filteredTokens text).length
        (counterItems (filteredTokens text)) []).mergeSort pairLE).map Prod.fst := rfl
  set toks := filteredTokens text
  set m0 := buildIndexValueMap hash toks.length (counterItems toks) [] with hm0
  have hknd : (m0.map Prod.fst).Nodup := by
    rw [hm0]
    exact build_keys_nodup hash toks.length (counterItems toks) [] (by simp)
  have hperm : ((m0.mergeSort pairLE).map Prod.fst).Perm (m0.map Prod.fst) :=
    (List.mergeSort_perm m0 pairLE).map Prod.fst
  have hnodupImpl : ((m0.mergeSort pairLE).map Prod.fst).Nodup :=
    hperm.nodup_iff.mpr hknd
  have hsortedImpl : List.Sorted (fun a b => a ≤ b)
      ((m0.mergeSort pairLE).map Prod.fst) := by
    have hps := List.sorted_mergeSort pairLE_trans pairLE_total m0
    exact List.Pairwise.map Prod.fst (fun a b hab => by simpa [pairLE] using hab) hps
  have hmemImpl : ∀ j, j ∈ (m0.mergeSort pairLE).map Prod.fst ↔
      j ∈ toks.dedup.map (tokenIndex hash) := by
    intro j
    rw [hperm.mem_iff, hm0, build_keys_mem hash toks.length (counterItems toks) [] j]
    simp [counterItems_map_fst_index hash toks]
  have hnodupSpec : (spec_used_indices hash text).Nodup := by
    unfold spec_used_indices
    exact (List.mergeSort_perm _ _).nodup_iff.mpr (List.nodup_dedup _)
  have hsortedSpec : List.Sorted (fun a b => a ≤ b) (spec_used_indices hash text) := by
    unfold spec_used_indices
    have hps := List.sorted_mergeSort natLE_trans natLE_total
      ((toks.dedup.map (tokenIndex hash)).dedup)
    exact List.Pairwise.imp (fun hab => by simpa using hab) hps
  have hmemSpec : ∀ j, j ∈ spec_used_indices hash text ↔
      j ∈ toks.dedup.map (tokenIndex hash) := by
    intro j
    unfold spec_used_indices
    rw [List.mem_mergeSort, List.mem_dedup]
  have hpermBoth : ((m0.mergeSort pairLE).map Prod.fst).Perm
      (spec_used_indices hash text) :=
    (List.perm_ext_iff_of_nodup hnodupImpl hnodupSpec).mpr
      (fun j => by rw [hmemImpl j, hmemSpec j])
  haveI : IsAntisymm Nat (fun a b => a ≤ b) := ⟨fun _ _ => le_antisymm⟩
  rw [hIdx]
  exact List.eq_of_perm_of_sorted hpermBoth hsortedImpl hsortedSpec

theorem lookupVal_build_eq_spec (hash : String → Int) (text : String) (j : Nat) :
    lookupVal (buildIndexValueMap hash (filteredTokens text).length
      (counterItems (filteredTokens text)) []) j = spec_value_at hash text j := by
  rw [build_lookupVal hash (filteredTokens text).length
    (counterItems (filteredTokens text)) [] j, lookupVal_nil, zero_add]
  unfold spec_value_at counterItems spec_tf
  rw [List.filter_map, List.map_map]
  rfl

theorem create_values_eq (hash : String → Int) (text : String) :
    (create_sparse_vector hash text).values =
      ((create_sparse_vector hash text).indices).map (spec_value_at hash text) := by
  have hIdx : (create_sparse_vector hash text).indices =
      ((buildIndexValueMap hash (filteredTokens text).length
        (counterItems (filteredTokens text)) []).mergeSort pairLE).map Prod.fst := rfl
  have hVal : (create_sparse_vector hash text).values =
      ((buildIndexValueMap hash (filteredTokens text).length
        (counterItems (filteredTokens text)) []).mergeSort pairLE).map Prod.snd := rfl
  set toks := filteredTokens text
  set m0 := buildIndexValueMap hash toks.length (counterItems toks) [] with hm0
  have hknd : (m0.map Prod.fst).Nodup := by
    rw [hm0]
    exact build_keys_nodup hash toks.length (counterItems toks) [] (by simp)
  rw [hIdx, hVal]
  apply map_snd_eq_map_of_lookup
  intro p hp
  have hpm : p ∈ m0 := (List.mergeSort_perm m0 pairLE).subset hp
  rw [snd_eq_lookupVal hknd hpm, hm0, lookupVal_build_eq_spec]

theorem create_eq_spec (hash : String → Int) (text : String) :
    create_sparse_vector hash text = sparse_vector_spec hash text := by
  refine sparseVector_eq_of_fields ?_ ?_
  · rw [create_indices_eq]
    rfl
  · rw [create_values_eq, create_indices_eq]
    rfl

theorem spec_used_indices_nodup (hash : String → Int) (text : String) :
    (spec_used_indices hash text).Nodup := by
  unfold spec_used_indices
  exact (List.mergeSort_perm _ _).nodup_iff.mpr (List.nodup_dedup _)

theorem spec_used_indices_sorted (hash : String → Int) (text : String) :
    List.Sorted (fun a b => a ≤ b) (spec_used_indices hash text) := by
  unfold spec_used_indices
  have hps := List.sorted_mergeSort natLE_trans natLE_total
    (((filteredTokens text).dedup.map (tokenIndex hash)).dedup)
  exact List.Pairwise.imp (fun hab => by simpa using hab) hps

/-! ## Claims about create_sparse_vector -/

/-- C1: for every input text (and every process hash function),
`create_sparse_vector` returns exactly the hashed term-frequency sparse vector
described by the spec: tokenize the lowercased text on word boundaries, drop
tokens of length at most 2 and the 16 stopwords, map each remaining distinct
token t to index `abs (hash t) % 100000` with value `count t / max total 1`,
and sum the values of tokens colliding on the same index. -/
theorem claim_C1_sparse_vector_refinement (hash : String → Int) (text : String) :
    create_sparse_vector hash text = sparse_vector_spec hash text :=
  create_eq_spec hash text

/-- C2: every index of the returned sparse vector lies in `[0, 100000)`. -/
theorem claim_C2_indices_bounded (hash : String → Int) (text : String) (i : Nat)
    (hi : i ∈ (create_sparse_vector hash text).indices) : i < SPARSE_DIM := by
  rw [create_indices_eq] at hi
  unfold spec_used_indices at hi
  rw [List.mem_mergeSort, List.mem_dedup] at hi
  rcases List.mem_map.mp hi with ⟨t, _, rfl⟩
  unfold tokenIndex
  exact Nat.mod_lt _ (by norm_num [SPARSE_DIM])

unseal List.merge List.mergeSort in
/-- Witness for C2 at a concrete input. -/
theorem claim_C2_witness :
    0 ∈ (create_sparse_vector (fun _ => 0) "hello world").indices ∧ 0 < SPARSE_DIM :=
  ⟨by decide, claim_C2_indices_bounded (fun _ => 0) "hello world" 0 (by decide)⟩

/-- C8: when at least one token survives the filtering, the values of the
sparse vector sum to exactly 1 in exact rational arithmetic, regardless of
hash collisions. -/
theorem claim_C8_values_sum_one (hash : String → Int) (text : String)
    (h : filteredTokens text ≠ []) :
    ((create_sparse_vector hash text).values).sum = 1 := by
  have hVal : (create_sparse_vector hash text).values =
      ((buildIndexValueMap hash (filteredTokens text).length
        (counterItems (filteredTokens text)) []).mergeSort pairLE).map Prod.snd := rfl
  set toks := filteredTokens text with htoks
  set m0 := buildIndexValueMap hash toks.length (counterItems toks) [] with hm0
  have hp : ((m0.mergeSort pairLE).map Prod.snd).sum = (m0.map Prod.snd).sum :=
    ((List.mergeSort_perm m0 pairLE).map Prod.snd).sum_eq
  rw [hVal, hp, hm0, build_sumValues]
  simp only [List.map_nil, List.sum_nil, zero_add]
  unfold counterItems
  rw [List.map_map]
  have htot : 0 < toks.length := List.length_pos.mpr h
  have hmax : max toks.length 1 = toks.length := max_eq_left htot
  have hne : ((toks.length : ℚ)) ≠ 0 :=
    Nat.cast_ne_zero.mpr (Nat.pos_iff_ne_zero.mp htot)
  have hfun : ∀ t ∈ toks.dedup,
      ((fun tc : String × Nat => tfValue toks.length tc.2) ∘
        (fun t => (t, toks.count t))) t =
        ((toks.count t : ℚ)) * ((toks.length : ℚ))⁻¹ := by
    intro t _
    simp [Function.comp, tfValue, hmax, div_eq_mul_inv]
  rw [List.map_congr_left hfun, List.sum_map_mul_right]
  have hcast : (toks.dedup.map (fun t => ((toks.count t : ℚ)))).sum =
      (((toks.dedup.map (fun t => toks.count t)).sum : Nat) : ℚ) := by
    rw [Nat.cast_list_sum, List.map_map]
    rfl
  rw [hcast, List.sum_map_count_dedup_eq_length]
  exact mul_inv_cancel₀ hne

/-- Witness for C8 at a concrete input. -/
theorem claim_C8_witness :
    filteredTokens "hello world" ≠ [] ∧
    ((create_sparse_vector (fun _ => 0) "hello world").values).sum = 1 :=
  ⟨by decide, claim_C8_values_sum_one (fun _ => 0) "hello world" (by decide)⟩

/-- C9: the returned sparse vector is well formed: strictly increasing index
list, index and value lists of equal length, and empty lists when no token
survives the filtering. -/
theorem claim_C9_well_formed (hash : String → Int) (text : String) :
    List.Sorted (fun a b => a < b) ((create_sparse_vector hash text).indices) ∧
    (create_sparse_vector hash text).indices.length =
      (create_sparse_vector hash text).values.length ∧
    (filteredTokens text = [] →
      (create_sparse_vector hash text).indices = [] ∧
      (create_sparse_vector hash text).values = []) := by
  refine ⟨?_, ?_, ?_⟩
  · rw [create_indices_eq]
    exact List.Sorted.lt_of_le (spec_used_indices_sorted hash text)
      (spec_used_indices_nodup hash text)
  · have hIdx : (create_sparse_vector hash text).indices =
        ((buildIndexValueMap hash (filteredTokens text).length
          (counterItems (filteredTokens text)) []).mergeSort pairLE).map Prod.fst := rfl
    have hVal : (create_sparse_vector hash text).values =
        ((buildIndexValueMap hash (filteredTokens text).length
          (counterItems (filteredTokens text)) []).mergeSort pairLE).map Prod.snd := rfl
    rw [hIdx, hVal, List.length_map, List.length_map]
  · intro h0
    have hidx0 : spec_used_indices hash text = [] := by
      unfold spec_used_indices
      rw [h0]
      simp
    constructor
    · rw [create_indices_eq, hidx0]
    · rw [create_values_eq, create_indices_eq, hidx0]
      rfl

/-- Witness for C9 at a concrete input with no surviving tokens. -/
theorem claim_C9_witness :
    filteredTokens "of the" = [] ∧
    (create_sparse_vector (fun _ => 0) "of the").indices = [] ∧
    (create_sparse_vector (fun _ => 0) "of the").values = [] :=
  ⟨by decide, (claim_C9_well_formed (fun _ => 0) "of the").2.2 (by decide)⟩

/-! ## Lemmas about the documents table -/

theorem add_document_of_dup {t : DocumentsTable} {doc : DocumentRow}
    (h : ∃ r ∈ t, r.document_id = doc.document_id) :
    DocumentDatabase.add_document t doc = (false, t) := by
  rcases h with ⟨r, hr, hid⟩
  have hc : t.any (fun r => r.document_id == doc.document_id) = true :=
    List.any_eq_true.mpr ⟨r, hr, beq_iff_eq.mpr hid⟩
  unfold DocumentDatabase.add_document
  rw [if_pos hc]

theorem add_document_fst_true {t : DocumentsTable} {doc : DocumentRow}
    (h : (DocumentDatabase.add_document t doc).1 = true) :
    DocumentDatabase.add_document t doc = (true, t ++ [doc]) := by
  unfold DocumentDatabase.add_document at h ⊢
  by_cases hc : t.any (fun r => r.document_id == doc.document_id)
  · rw [if_pos hc] at h
    simp at h
  · rw [if_neg hc]

theorem table_ids_nodup {t : DocumentsTable} (h : TableReachable t) :
    (t.map (fun r => r.document_id)).Nodup := by
  induction h with
  | init => simp
  | add t doc _ ih =>
    unfold DocumentDatabase.add_document
    by_cases hc : t.any (fun r => r.document_id == doc.document_id)
    · rw [if_pos hc]
      exact ih
    · rw [if_neg hc]
      simp only [List.map_append, List.map_cons, List.map_nil, List.nodup_append]
      refine ⟨ih, List.nodup_singleton _, ?_⟩
      intro x hx hx1
      rw [List.mem_singleton] at hx1
      subst hx1
      rcases List.mem_map.mp hx with ⟨r, hr, hrid⟩
      exact hc (List.any_eq_true.mpr ⟨r, hr, beq_iff_eq.mpr hrid⟩)
  | del t document_id _ ih =>
    unfold DocumentDatabase.delete_document
    exact List.Nodup.sublist (List.Sublist.map _ (List.filter_sublist t)) ih

/-! ## Claims about the documents table and the routes -/

/-- C4: in every reachable table state no two rows share a document_id, and
adding a row whose document_id is already present returns False and leaves the
table unchanged. -/
theorem claim_C4_primary_key_uniqueness {t : DocumentsTable} (h : TableReachable t) :
    (t.map (fun r => r.document_id)).Nodup ∧
    ∀ doc : DocumentRow, (∃ r ∈ t, r.document_id = doc.document_id) →
      DocumentDatabase.add_document t doc = (false, t) :=
  ⟨table_ids_nodup h, fun _ hdoc => add_document_of_dup hdoc⟩

/-- Witness for C4 at a concrete reachable one-row table. -/
theorem claim_C4_witness :
    (((DocumentDatabase.add_document []
        ⟨"d1", "a.pdf", "2024-01-01", 1, "processed", "uploads/a"⟩).2).map
      (fun r => r.document_id)).Nodup ∧
    ∀ doc : DocumentRow,
      (∃ r ∈ (DocumentDatabase.add_document []
          ⟨"d1", "a.pdf", "2024-01-01", 1, "processed", "uploads/a"⟩).2,
        r.document_id = doc.document_id) →
      DocumentDatabase.add_document
          (DocumentDatabase.add_document []
            ⟨"d1", "a.pdf", "2024-01-01", 1, "processed", "uploads/a"⟩).2 doc =
        (false,
          (DocumentDatabase.add_document []
            ⟨"d1", "a.pdf", "2024-01-01", 1, "processed", "uploads/a"⟩).2) :=
  claim_C4_primary_key_uniqueness
    (TableReachable.add [] ⟨"d1", "a.pdf", "2024-01-01", 1, "processed", "uploads/a"⟩
      TableReachable.init)

theorem upload_success_shape (a : UploadArgs) (t : DocumentsTable)
    (h : ∃ resp, (Routes.upload_document a t).1 = UploadOutcome.success resp) :
    Routes.upload_document a t =
      (UploadOutcome.success
        { document_id := a.document_id, filename := a.filename,
          chunks_count := a.chunks.length, status := "processed" },
       t ++ [uploadRow a],
       [Effect.fileWrite (uploadFilePath a)] ++ upsertBatchCalls a.chunks.length ++
         [Effect.dbInsert]) := by
  rcases h with ⟨resp, hr⟩
  simp only [Routes.upload_document] at hr ⊢
  by_cases h1 : !(isPdfFilename a.filename)
  · rw [if_pos h1] at hr
    simp at hr
  · rw [if_neg h1] at hr ⊢
    by_cases h2 : a.extracted_text.isEmpty
    · rw [if_pos h2] at hr
      simp at hr
    · rw [if_neg h2] at hr ⊢
      by_cases h3 : !a.vector_ok
      · rw [if_pos h3] at hr
        simp at hr
      · rw [if_neg h3] at hr ⊢
        by_cases h4 : (DocumentDatabase.add_document t (uploadRow a)).1
        · rw [if_pos h4, add_document_fst_true h4]
        · rw [if_neg h4] at hr
          simp at hr

/-- C3: a successful upload (a `success` outcome, whose response carries
status "processed") grows the documents table by exactly one row. -/
theorem claim_C3_upload_increments_count (a : UploadArgs) (t : DocumentsTable)
    (resp : DocumentUploadResponse)
    (h : (Routes.upload_document a t).1 = UploadOutcome.success resp) :
    resp.status = "processed" ∧
    (Routes.upload_document a t).2.1.length = t.length + 1 := by
  have hs := upload_success_shape a t ⟨resp, h⟩
  rw [hs] at h
  constructor
  · injection h with h'
    rw [← h']
  · rw [hs]
    simp

/-- Witness for C3 at a concrete successful upload into the empty table. -/
theorem claim_C3_witness :
    DocumentUploadResponse.status ⟨"d1", "doc.pdf", 1, "processed"⟩ = "processed" ∧
    (Routes.upload_document ⟨"doc.pdf", "d1", "2024-01-01", "text", ["chunk"], true⟩
      []).2.1.length = ([] : DocumentsTable).length + 1 :=
  claim_C3_upload_increments_count
    ⟨"doc.pdf", "d1", "2024-01-01", "text", ["chunk"], true⟩ [] _ (by rfl)

theorem upload_failure_status (o : UploadOutcome) (h : o.isFailure = true) :
    o.statusCode = 400 ∨ o.statusCode = 500 := by
  cases o <;> simp [UploadOutcome.statusCode, UploadOutcome.isFailure] at *

theorem fetch_failure_status {α : Type} (o : FetchOutcome α)
    (h : o.isFailure = true) : o.statusCode = 404 := by
  cases o <;> simp [FetchOutcome.statusCode, FetchOutcome.isFailure] at *

/-- C5 counterexample: fetching a missing document is a failing request that
is answered with HTTP 404, not 500. -/
theorem claim_C5_counterexample :
    (Routes.get_document [] "missing").isFailure = true ∧
    ¬ (Routes.get_document [] "missing").statusCode = 500 := by
  constructor
  · rfl
  · decide

/-- C5 amended: failing requests are answered with 400 (upload validation),
404 (missing document or conversation) or 500 (generic exception mapping),
not uniformly with 500. -/
theorem claim_C5_failure_status_mapping :
    (∀ (a : UploadArgs) (t : DocumentsTable),
      (Routes.upload_document a t).1.isFailure = true →
        (Routes.upload_document a t).1.statusCode = 400 ∨
        (Routes.upload_document a t).1.statusCode = 500) ∧
    (∀ (t : DocumentsTable) (document_id : String),
      (Routes.get_document t document_id).isFailure = true →
        (Routes.get_document t document_id).statusCode = 404) ∧
    (∀ (s : ConversationStore) (conversation_id : String),
      (Routes.get_conversation s conversation_id).isFailure = true →
        (Routes.get_conversation s conversation_id).statusCode = 404) :=
  ⟨fun _ _ h => upload_failure_status _ h,
   fun _ _ h => fetch_failure_status _ h,
   fun _ _ h => fetch_failure_status _ h⟩

/-- Witness for the amended C5 at a concrete failing upload. -/
theorem claim_C5_witness :
    (Routes.upload_document ⟨"notes.txt", "d2", "2024-01-01", "text", [], true⟩
      []).1.statusCode = 400 ∨
    (Routes.upload_document ⟨"notes.txt", "d2", "2024-01-01", "text", [], true⟩
      []).1.statusCode = 500 :=
  claim_C5_failure_status_mapping.1
    ⟨"notes.txt", "d2", "2024-01-01", "text", [], true⟩ [] (by rfl)

/-- C6 counterexample: a successful upload persists state locally: its effect
trace contains local-durable-storage writes and the local SQLite table gains a
row. -/
theorem claim_C6_counterexample :
    ((Routes.upload_document ⟨"doc.pdf", "d1", "2024-01-01", "text", ["chunk"], true⟩
        []).2.2.any Effect.isLocalPersist) = true ∧
    (Routes.upload_document ⟨"doc.pdf", "d1", "2024-01-01", "text", ["chunk"], true⟩
        []).2.1 ≠ [] := by
  constructor
  · rfl
  · decide

/-- C6 amended: vector search and inference are hosted, but durable storage is
local: every successful upload writes the PDF under the local uploads
directory and inserts a row into the local SQLite documents table. -/
theorem claim_C6_local_persistence (a : UploadArgs) (t : DocumentsTable)
    (resp : DocumentUploadResponse)
    (h : (Routes.upload_document a t).1 = UploadOutcome.success resp) :
    Effect.fileWrite (uploadFilePath a) ∈ (Routes.upload_document a t).2.2 ∧
    Effect.dbInsert ∈ (Routes.upload_document a t).2.2 := by
  rw [upload_success_shape a t ⟨resp, h⟩]
  constructor
  · simp
  · simp

/-- Witness for the amended C6 at a concrete successful upload. -/
theorem claim_C6_witness :
    Effect.fileWrite
        (uploadFilePath ⟨"doc.pdf", "d3", "2024-01-01", "text", ["chunk"], true⟩) ∈
      (Routes.upload_document ⟨"doc.pdf", "d3", "2024-01-01", "text", ["chunk"], true⟩
        []).2.2 ∧
    Effect.dbInsert ∈
      (Routes.upload_document ⟨"doc.pdf", "d3", "2024-01-01", "text", ["chunk"], true⟩
        []).2.2 :=
  claim_C6_local_persistence ⟨"doc.pdf", "d3", "2024-01-01", "text", ["chunk"], true⟩
    [] ⟨"d3", "doc.pdf", 1, "processed"⟩ (by rfl)

/-- C7 counterexample: the chat handler with a document_id makes two external
calls (a Pinecone query and an LLM completion), not a single one. -/
theorem claim_C7_counterexample :
    ((Routes.chat ⟨"c1", ["ctx"], ["Chunk 0"], true, "answer"⟩
        ⟨"question", some "doc1", none⟩ []).2.2.filter Effect.isServiceCall).length = 2 ∧
    (2 : Nat) ≠ 1 := by
  constructor
  · rfl
  · decide

/-- C7 amended: route handlers are thin wrappers over external services but
may make more than one call per request: the chat handler makes exactly two
external calls when a truthy (non-empty) document_id is provided (a vector
query and an LLM completion) and exactly one otherwise. -/
theorem claim_C7_chat_call_count (env : ChatEnv) (req : ChatRequest)
    (s : ConversationStore) :
    ((Routes.chat env req s).2.2.filter Effect.isServiceCall).length =
      if optStrTruthy req.document_id then 2 else 1 := by
  by_cases hok : env.llm_ok <;> by_cases hd : optStrTruthy req.document_id <;>
    simp [Routes.chat, hok, hd, Effect.isServiceCall]

/-! ## Lemmas about the conversation store -/

theorem lastTen_length_le (l : List ChatMsg) : (lastTen l).length ≤ 10 := by
  unfold lastTen
  rw [List.length_drop]
  omega

theorem mem_convSet {s : ConversationStore} {conversation_id : String}
    {hist : List ChatMsg} {q : String × List ChatMsg}
    (hq : q ∈ convSet s conversation_id hist) : q ∈ s ∨ q.2 = hist := by
  unfold convSet at hq
  by_cases hmem : s.any (fun p => p.1 == conversation_id)
  · rw [if_pos hmem] at hq
    rcases List.mem_map.mp hq with ⟨p, hp, rfl⟩
    by_cases hpid : (p.1 == conversation_id) = true
    · rw [if_pos hpid]
      right
      rfl
    · rw [if_neg hpid]
      left
      exact hp
  · rw [if_neg hmem] at hq
    rcases List.mem_append.mp hq with hq | hq
    · left
      exact hq
    · right
      rw [List.mem_singleton] at hq
      subst hq
      rfl

theorem chat_store (env : ChatEnv) (req : ChatRequest) (s : ConversationStore) :
    (Routes.chat env req s).2.1 =
      if env.llm_ok then
        convSet s (orDefault req.conversation_id env.generated_id)
          (lastTen (((convLookup s (orDefault req.conversation_id env.generated_id)).getD []) ++
            [{ role := "user", content := req.message },
             { role := "assistant", content := env.llm_response }]))
      else s := by
  by_cases hok : env.llm_ok <;> simp [Routes.chat, hok]

theorem conv_store_bounded {s : ConversationStore} (h : ConvReachable s) :
    ∀ p ∈ s, p.2.length ≤ 10 := by
  induction h with
  | init => simp
  | chatStep env req s _ ih =>
    intro p hp
    rw [chat_store] at hp
    by_cases hok : env.llm_ok
    · rw [if_pos hok] at hp
      rcases mem_convSet hp with hp | hp
      · exact ih p hp
      · rw [hp]
        exact lastTen_length_le _
    · rw [if_neg hok] at hp
      exact ih p hp
  | deleteStep s conversation_id _ ih =>
    intro p hp
    unfold Routes.delete_conversation at hp
    by_cases hmem : s.any (fun q => q.1 == conversation_id)
    · rw [if_pos hmem] at hp
      exact ih p (List.mem_of_mem_filter hp)
    · rw [if_neg hmem] at hp
      exact ih p hp

/-- C10: in every reachable conversation store (in particular after every
successful chat request) the stored history of every conversation_id has at
most 10 messages. -/
theorem claim_C10_bounded_histories {s : ConversationStore} (h : ConvReachable s)
    (conversation_id : String) (msgs : List ChatMsg)
    (hl : convLookup s conversation_id = some msgs) : msgs.length ≤ 10 := by
  unfold convLookup at hl
  cases hf : s.find? (fun p => p.1 == conversation_id) with
  | none =>
    rw [hf] at hl
    cases hl
  | some p =>
    rw [hf] at hl
    have hmem : p ∈ s := List.mem_of_find?_eq_some hf
    have : p.2 = msgs := by
      simpa using hl
    rw [← this]
    exact conv_store_bounded h p hmem

/-- Witness for C10 after one concrete chat request. -/
theorem claim_C10_witness :
    convLookup (Routes.chat ⟨"c1", [], [], true, "hi"⟩ ⟨"hello", none, none⟩ []).2.1
        "c1" =
      some [{ role := "user", content := "hello" },
            { role := "assistant", content := "hi" }] ∧
    ([{ role := "user", content := "hello" },
      { role := "assistant", content := "hi" }] : List ChatMsg).length ≤ 10 :=
  ⟨by rfl,
   claim_C10_bounded_histories
     (ConvReachable.chatStep ⟨"c1", [], [], true, "hi"⟩ ⟨"hello", none, none⟩ []
       ConvReachable.init)
     "c1" _ (by rfl)⟩

end RagPdf
